import Mathlib

/-!
Verification of the pipeline-testbench generator.

The program is embedded shallowly: strings are Lean `String`s, the
`helper!` templating macro becomes the function `helper`, the `indent`
function is transcribed from the source, and the domain model
(`Pipeline`, `Stage`, `Hazard`, `Forward`, `Edge`) together with the
renderers `generate_stage_report`, `generate_hazard_report`,
`generate_forward_report` and `generate_testbench` are transcribed
field by field and literal by literal.
-/

/-- Splits a character list at every newline character, keeping the
(possibly empty) segments between newlines.  `splitNL cs` always has
one more element than the number of newlines in `cs`. -/
def splitNL : List Char → List (List Char)
  | [] => [[]]
  | c :: cs =>
    if c = '\n' then [] :: splitNL cs
    else
      match splitNL cs with
      | [] => [[c]]
      | l :: ls => (c :: l) :: ls

/-- Removes one trailing carriage return, as the `str::lines` iterator of Rust does on
every newline-terminated segment. -/
def stripCR (l : List Char) : List Char :=
  if l.getLast? = some '\x0d' then l.dropLast else l

/-- Embedding of the `str::lines` iterator of Rust: segments are cut at every `\n`;
a final line terminator is optional; a segment that was terminated by a
newline additionally loses one trailing carriage return; the empty
string has no lines. -/
def rustLines (s : String) : List String :=
  if s.data = [] then []
  else if s.data.getLast? = some '\n' then
    ((splitNL s.data).dropLast).map fun l => String.mk (stripCR l)
  else
    ((splitNL s.data).dropLast).map (fun l => String.mk (stripCR l))
      ++ [String.mk ((splitNL s.data).getLastD [])]

/-- Embedding of `fn indent(level: usize, src: &str) -> String`: every
line of `src` except the first is prefixed with `level` spaces and every
emitted line is terminated with a newline. -/
def indent (level : Nat) (src : String) : String :=
  let spaces := String.mk (List.replicate level ' ')
  (rustLines src).enum.foldl
    (fun out il => (if il.1 > 0 then out ++ spaces else out) ++ il.2 ++ "\n") ""

/-- Sequential conjunction of the optional conditions of the `helper!`
macro: the expansion `$(if !$cond { continue; })*` tests the conditions
in declaration order and skips the element at the first failure. -/
def passSeq {α : Type} (preds : List (α → Bool)) (x : α) : Bool :=
  match preds with
  | [] => true
  | p :: ps => if !(p x) then false else passSeq ps x

/-- The list of condition results the `helper!` loop body actually
observes for one element: conditions are evaluated in declaration order
and evaluation stops at the first `false`. -/
def evalPreds {α : Type} : List (α → Bool) → α → List Bool
  | [], _ => []
  | p :: ps, x => if p x then true :: evalPreds ps x else [false]

/-- The separator string actually pushed by `helper!`: the supplied one,
or nothing when no separator was declared. -/
def optJoin (joiner : Option String) : String :=
  match joiner with
  | some j => j
  | none => ""

/-- The accumulation loop of the `helper!` macro: `s` is the string
built so far and `stitch` records whether a passing element has already
been processed (the separator, when present, is pushed before every
passing element except the first). -/
def helperCore {α : Type} (preds : List (α → Bool)) (joiner : Option String)
    (f : α → String) : List α → String → Bool → String
  | [], s, _ => s
  | x :: xs, s, stitch =>
    if passSeq preds x then
      helperCore preds joiner f xs
        ((if stitch then s ++ optJoin joiner else s) ++ f x)
        true
    else
      helperCore preds joiner f xs s stitch

/-- Embedding of the `helper!` macro: iterate the collection, filter by
the conjunction of the optional conditions, map every surviving element
to a string, join with the optional separator, and when a positive
indentation level was supplied pass the result through `indent`. -/
def helper {α : Type} (preds : List (α → Bool)) (level : Option Nat)
    (joiner : Option String) (f : α → String) (xs : List α) : String :=
  let s := helperCore preds joiner f xs "" false
  match level with
  | some lv => if lv > 0 then indent lv s else s
  | none => s

/-- Instrumentation of the `helper!` loop: the list of elements the
mapping expression `$map` is evaluated on, in iteration order.  The
loop evaluates `$map` exactly once, at the point this list records. -/
def helperMapLog {α : Type} (preds : List (α → Bool)) : List α → List α
  | [] => []
  | x :: xs =>
    if passSeq preds x then x :: helperMapLog preds xs else helperMapLog preds xs

/-- Plain concatenation of a list of strings. -/
def strJoin : List String → String
  | [] => ""
  | a :: rest => a ++ strJoin rest

/-- Joins a list of strings with the separator `j` between consecutive
elements (and no separator at either end). -/
def joinSep (j : String) : List String → String
  | [] => ""
  | [a] => a
  | a :: rest => a ++ j ++ joinSep j rest

/-- Clock-edge choice: a tagged variant carrying the signal name. -/
inductive Edge where
  | Posedge : String → Edge
  | Negedge : String → Edge
  | Edge : String → Edge

/-- One pipeline stage: display name, human-readable description, and
optional stall/flush condition expressions. -/
structure Stage where
  name : String
  description : String
  stall : Option String
  flush : Option String

/-- A hazard: display name, description, detection condition. -/
structure Hazard where
  name : String
  description : String
  condition : String

/-- A forwarding path: display name, description, activation condition,
and shared references to the source and destination stages (`from` is a
Lean keyword, hence `fromStage`/`toStage`). -/
structure Forward where
  name : String
  description : String
  condition : String
  fromStage : Stage
  toStage : Stage

/-- The root aggregate. -/
structure Pipeline where
  name : String
  description : String
  clock : Edge
  stages : List Stage
  hazards : List Hazard
  forwards : List Forward

/-- Embedding of `generate_stage_report`: the stall and flush
expressions (defaulting to the literal one-bit false expression) and the stage name are
substituted into the `$display`/`status` template.  The `\x1B` below is
the two characters backslash-x followed by `1B`, exactly as in the Rust
raw string. -/
def generate_stage_report (stage : Stage) : String :=
  let st := match stage.stall with | some c => c | none => "1\x27b0"
  let fl := match stage.flush with | some c => c | none => "1\x27b0"
  "$display(\"%s " ++ stage.name ++ "\\x1B[0m\", status(" ++ st ++ ", " ++ fl ++ "));"

/-- Embedding of `generate_hazard_report`. -/
def generate_hazard_report (hz : Hazard) : String :=
  "$display(\"%s " ++ hz.name ++ "\\x1B[0m\", hazard_mark(" ++ hz.condition ++ "));"

/-- Embedding of `generate_forward_report`: only the name and the
condition of the forward are read; `fromStage`, `toStage` and
`description` are ignored. -/
def generate_forward_report (fw : Forward) : String :=
  "$display(\"%s " ++ fw.name ++ "\\x1B[0m\", forward_mark(" ++ fw.condition ++ "));"

/-- Embedding of the `match clock` expression of `generate_testbench`. -/
def renderEdge : Edge → String
  | Edge.Posedge n => "posedge " ++ n
  | Edge.Negedge n => "negedge " ++ n
  | Edge.Edge n => "edge " ++ n

/-- Skeleton text of the testbench before the pipeline name. -/
def tbA : String :=
  "function string status(input stall, flush);\n\n    case (1\x27b1)\n        flush:   return \"\\x1B[1;31m【FLUSH】 \\x1B[0m\";\n        stall:   return \"\\x1B[1;33m【STALL】 \\x1B[0m\";\n        default: return \"\\x1B[1;32m【ACTIVE】\\x1B[0m\";\n    endcase\n\nendfunction\n        \nfunction string hazard_mark(input condition);\n\n    if (condition) return \"\\x1B[1;33m ⚠ \";\n    else           return \"\\x1B[1;32m ∅ \";\n\nendfunction\n\nfunction string forward_mark(input condition);\n\n    if (condition) return \"\\x1B[1;33m → \";\n    else           return \"\\x1B[1;37m ∅ \";\n\nendfunction\n\ninitial begin\n\n    $display(\"███   "

/-- Skeleton text between the pipeline description and the clock
trigger, ending with the opening of the always block. -/
def tbB : String :=
  "   ███\");\n    $display();\n    $display();\n\nend\n\nalways @("

/-- Skeleton text between the clock trigger and the stages block. -/
def tbC : String :=
  ") begin\n\n\t$display(\"───────────────────────────────────────────────────\");\n\t$display();\n\n    $display(\"= STAGES =\");\n    "

/-- Skeleton text between the stages block and the hazards block. -/
def tbD : String :=
  "\n    $display();\n    $display(\"= HAZARDS =\");\n    "

/-- Skeleton text between the hazards block and the forwards block. -/
def tbE : String :=
  "\n    $display();\n    $display(\"= FORWARDS =\");\n    "

/-- Skeleton text after the forwards block. -/
def tbF : String :=
  "\n    $display();\n\nend"

/-- Embedding of `generate_testbench`: renders the clock trigger,
renders the three entity collections through `helper` (no conditions,
indentation level 4, newline separator), and interpolates everything
into the fixed skeleton. -/
def generate_testbench (pipe : Pipeline) : String :=
  let cl := renderEdge pipe.clock
  let st := helper [] (some 4) (some "\n") generate_stage_report pipe.stages
  let hz := helper [] (some 4) (some "\n") generate_hazard_report pipe.hazards
  let fw := helper [] (some 4) (some "\n") generate_forward_report pipe.forwards
  tbA ++ pipe.name ++ ": " ++ pipe.description ++ tbB ++ cl ++ tbC ++ st
    ++ tbD ++ hz ++ tbE ++ fw ++ tbF

/-! ### Characterization of the templating loop -/

/-- The sequential condition test equals the conjunction of all
conditions. -/
theorem passSeq_eq_all {α : Type} (preds : List (α → Bool)) (x : α) :
    passSeq preds x = preds.all fun p => p x := by
  induction preds with
  | nil => rfl
  | cons p ps ih => cases hp : p x <;> simp [passSeq, hp, ih]

/-- Joining a nonempty list: the head, then each further element
prefixed with the separator. -/
theorem joinSep_cons (j a : String) (l : List String) :
    joinSep j (a :: l) = a ++ strJoin (l.map fun b => j ++ b) := by
  induction l generalizing a with
  | nil => simp [joinSep, strJoin]
  | cons b l ih => simp [joinSep, strJoin, ih, String.append_assoc]

/-- Accumulator lemma for the loop after the first passing element: every
further passing element contributes separator-then-fragment. -/
theorem helperCore_true {α : Type} (preds : List (α → Bool)) (joiner : Option String)
    (f : α → String) (xs : List α) (s : String) :
    helperCore preds joiner f xs s true
      = s ++ strJoin ((xs.filter (passSeq preds)).map fun x => optJoin joiner ++ f x) := by
  induction xs generalizing s with
  | nil => simp [helperCore, strJoin]
  | cons x xs ih =>
    cases hx : passSeq preds x <;>
      simp [helperCore, hx, List.filter_cons, ih, strJoin, String.append_assoc]

/-- The templating loop started fresh produces the fragments of the
passing elements joined by the separator. -/
theorem helperCore_false {α : Type} (preds : List (α → Bool)) (joiner : Option String)
    (f : α → String) (xs : List α) (s : String) :
    helperCore preds joiner f xs s false
      = s ++ joinSep (optJoin joiner) ((xs.filter (passSeq preds)).map f) := by
  induction xs generalizing s with
  | nil => simp [helperCore, joinSep]
  | cons x xs ih =>
    cases hx : passSeq preds x
    · simp [helperCore, hx, List.filter_cons, ih]
    · simp [helperCore, hx, List.filter_cons, helperCore_true, joinSep_cons,
        List.map_map, Function.comp_def, String.append_assoc]

/-- Filtering by the sequential test is filtering by the conjunction. -/
theorem filter_passSeq {α : Type} (preds : List (α → Bool)) (xs : List α) :
    xs.filter (passSeq preds) = xs.filter fun x => preds.all fun p => p x := by
  induction xs with
  | nil => rfl
  | cons x xs ih => simp [List.filter_cons, passSeq_eq_all, ih]

/-- `helper` without indentation: fragments of the elements passing all
conditions, in order, joined by the separator. -/
theorem helper_none {α : Type} (preds : List (α → Bool)) (joiner : Option String)
    (f : α → String) (xs : List α) :
    helper preds none joiner f xs
      = joinSep (optJoin joiner) (((xs.filter fun x => preds.all fun p => p x).map f)) := by
  simp [helper, helperCore_false, filter_passSeq]

/-- Two strings with the same character data are equal. -/
theorem strExt {a b : String} (h : a.data = b.data) : a = b := by
  cases a; cases b; exact congrArg String.mk h

/-- The character data of a joined string list. -/
theorem strJoin_data (l : List String) :
    (strJoin l).data = (l.map String.data).flatten := by
  induction l with
  | nil => rfl
  | cons a l ih => simp [strJoin, ih]

/-- The empty string has no lines. -/
theorem rustLines_empty : rustLines "" = [] := by
  simp [rustLines]

/-- Indenting the empty string yields the empty string. -/
theorem indent_empty (lv : Nat) : indent lv "" = "" := by
  simp [indent, rustLines_empty]

/-- Joining with the empty separator is plain concatenation. -/
theorem joinSep_empty_sep (l : List String) : joinSep "" l = strJoin l := by
  induction l with
  | nil => rfl
  | cons a l ih =>
    cases l with
    | nil => simp [joinSep, strJoin]
    | cons b l' => simp [joinSep, strJoin, String.append_assoc] at ih ⊢; simp [ih]

/-- With an empty condition list the sequential test always passes. -/
theorem passSeq_nil {α : Type} : passSeq ([] : List (α → Bool)) = fun _ => true := rfl

/-- Claim C1: with zero conditions and no indentation, the output of the
templating primitive is the mapped fragments of all elements in original
order, joined by the separator when one is supplied and concatenated
directly otherwise. -/
theorem claim_c1 {α : Type} (xs : List α) (f : α → String) (j : String) :
    helper [] none (some j) f xs = joinSep j (xs.map f)
      ∧ helper [] none none f xs = strJoin (xs.map f) := by
  constructor
  · simp [helper_none, optJoin, List.filter_true]
  · simp [helper_none, optJoin, List.filter_true, joinSep_empty_sep]

/-- The elements the mapping expression is evaluated on are exactly the
elements passing all conditions, in order. -/
theorem helperMapLog_eq_filter {α : Type} (preds : List (α → Bool)) (xs : List α) :
    helperMapLog preds xs = xs.filter fun x => preds.all fun p => p x := by
  induction xs with
  | nil => rfl
  | cons x xs ih => simp [helperMapLog, List.filter_cons, passSeq_eq_all, ih]

/-- The condition results observed by the loop body are the results in
declaration order up to and including the first failure. -/
theorem evalPreds_spec {α : Type} (preds : List (α → Bool)) (x : α) :
    evalPreds preds x
      = ((preds.map fun p => p x).takeWhile id)
        ++ ((preds.map fun p => p x).dropWhile id).take 1 := by
  induction preds with
  | nil => rfl
  | cons p ps ih => cases hp : p x <;> simp [evalPreds, hp, ih, id]

/-- Claim C2: an element is included exactly when all conditions hold for
it, conditions are observed in declaration order up to the first failure,
the mapping expression is evaluated once per passing element in
collection order, an always-false condition empties the output, and
prepending an always-true condition changes nothing. -/
theorem claim_c2 {α : Type} (preds preds₁ preds₂ : List (α → Bool)) (level : Option Nat)
    (joiner : Option String) (f : α → String) (xs : List α) (x : α) :
    helper preds none joiner f xs
        = joinSep (optJoin joiner) ((xs.filter fun y => preds.all fun p => p y).map f)
      ∧ helperMapLog preds xs = xs.filter (fun y => preds.all fun p => p y)
      ∧ evalPreds preds x
          = ((preds.map fun p => p x).takeWhile id)
            ++ ((preds.map fun p => p x).dropWhile id).take 1
      ∧ helper (preds₁ ++ (fun _ => false) :: preds₂) level joiner f xs = ""
      ∧ helper ((fun _ => true) :: preds) level joiner f xs
          = helper preds level joiner f xs := by
  refine ⟨?_, ?_, ?_, ?_, ?_⟩
  · exact helper_none preds joiner f xs
  · exact helperMapLog_eq_filter preds xs
  · exact evalPreds_spec preds x
  · have hfail : ∀ y, passSeq (preds₁ ++ (fun _ => false) :: preds₂) y = false := by
      intro y
      simp [passSeq_eq_all, List.all_append]
    have hnil : xs.filter (passSeq (preds₁ ++ (fun _ => false) :: preds₂)) = [] := by
      apply List.filter_eq_nil_iff.mpr
      intro a _
      simp [hfail a]
    cases level with
    | none => simp [helper, helperCore_false, hnil, joinSep]
    | some lv => simp [helper, helperCore_false, hnil, joinSep, indent_empty]
  · have hpass : passSeq ((fun _ : α => true) :: preds) = passSeq preds := by
      funext y
      simp [passSeq]
    have hs : helperCore ((fun _ : α => true) :: preds) joiner f xs "" false
        = helperCore preds joiner f xs "" false := by
      rw [helperCore_false, helperCore_false, hpass]
    cases level <;> simp [helper, hs]

/-- Claim C8: on the empty collection the templating primitive returns
the empty string whatever the separator and indentation settings are, and
the indentation pass maps the empty string to the empty string. -/
theorem claim_c8 {α : Type} (preds : List (α → Bool)) (level : Option Nat)
    (joiner : Option String) (f : α → String) :
    helper preds level joiner f ([] : List α) = ""
      ∧ ∀ lv : Nat, indent lv "" = "" := by
  refine ⟨?_, indent_empty⟩
  cases level with
  | none => rfl
  | some lv => simp [helper, helperCore, indent_empty]

/-- Number of positions at which `pat` occurs as a contiguous substring
of `s` (all positions, including overlapping ones). -/
def countOccs (pat : List Char) : List Char → Nat
  | [] => 0
  | c :: rest => (if pat.isPrefixOf (c :: rest) then 1 else 0) + countOccs pat rest

/-- Occurrences of a one-character pattern are occurrences of the
character. -/
theorem countOccs_single (c : Char) (l : List Char) :
    countOccs [c] l = l.count c := by
  induction l with
  | nil => rfl
  | cons d rest ih =>
    by_cases hcd : c = d
    · subst hcd
      simp [countOccs, List.isPrefixOf, List.count_cons, ih, Nat.add_comm]
    · simp [countOccs, List.isPrefixOf, List.count_cons, ih, hcd, Ne.symm hcd]

/-- Counting the separator character in a separator-joined list whose
elements avoid it: one occurrence per junction. -/
theorem count_joinSep (c : Char) : ∀ l : List String, (∀ s ∈ l, c ∉ s.data) →
    (joinSep (String.mk [c]) l).data.count c = l.length - 1 := by
  intro l
  induction l with
  | nil => intro _; simp [joinSep]
  | cons a l ih =>
    intro h
    cases l with
    | nil => simp [joinSep, List.count_eq_zero.mpr (h a (by simp))]
    | cons b l' =>
      have ha : c ∉ a.data := h a (by simp)
      have ihr := ih fun s hs => h s (by simp [List.mem_cons] at hs ⊢; tauto)
      simp [joinSep, String.data_append, List.count_append,
        List.count_eq_zero.mpr ha, ihr]

/-- Counterexample to claim C3 as stated: with separator `"a"` and a
mapped fragment equal to `"a"`, one passing element already makes the
separator occur once in the output, not zero times. -/
theorem claim_c3_cx :
    ¬ (countOccs ("a".data)
          (helper ([] : List (Unit → Bool)) none (some "a") (fun _ => "a") [()]).data
        = (([()] : List Unit).filter
            (fun u => ([] : List (Unit → Bool)).all fun p => p u)).length - 1) := by
  decide

/-- Claim C3 (amended): for a single-character separator that occurs in
the fragment of no passing element, and with no indentation requested, the
separator occurs in the output exactly (passing count − 1) times (zero
when at most one element passes, by natural subtraction), and the output
is exactly the fragments joined pairwise by the separator, so no
separator stands before the first fragment or after the last. -/
theorem claim_c3 {α : Type} (preds : List (α → Bool)) (f : α → String) (c : Char)
    (xs : List α)
    (hc : ∀ x ∈ xs, (preds.all fun p => p x) = true → c ∉ (f x).data) :
    countOccs [c] (helper preds none (some (String.mk [c])) f xs).data
        = (xs.filter fun x => preds.all fun p => p x).length - 1
      ∧ helper preds none (some (String.mk [c])) f xs
        = joinSep (String.mk [c])
            ((xs.filter fun x => preds.all fun p => p x).map f) := by
  have h2 := helper_none preds (some (String.mk [c])) f xs
  have h2' : helper preds none (some (String.mk [c])) f xs
      = joinSep (String.mk [c])
          ((xs.filter fun x => preds.all fun p => p x).map f) := by
    simpa [optJoin] using h2
  refine ⟨?_, h2'⟩
  rw [countOccs_single, h2']
  have hfree : ∀ s ∈ (xs.filter fun x => preds.all fun p => p x).map f,
      c ∉ s.data := by
    intro s hs
    obtain ⟨x, hx, rfl⟩ := List.mem_map.mp hs
    have hm := List.mem_filter.mp hx
    exact hc x hm.1 hm.2
  simpa [List.length_map] using count_joinSep c _ hfree

/-- Witness for claim C3 at a concrete input: two passing fragments
joined by a comma give exactly one comma. -/
theorem claim_c3_w :
    countOccs [',']
        (helper ([] : List (String → Bool)) none (some (String.mk [','])) id
          ["x", "y"]).data
      = ((["x", "y"] : List String).filter
          (fun x => ([] : List (String → Bool)).all fun p => p x)).length - 1 :=
  (claim_c3 [] id ',' ["x", "y"] (by decide)).1

/-- The indentation fold after the first line: every remaining line gets
the space prefix and a terminating newline. -/
theorem indent_go (sp : String) (ls : List String) :
    ∀ (i : Nat) (acc : String), 1 ≤ i →
      (List.enumFrom i ls).foldl
          (fun out il => (if il.1 > 0 then out ++ sp else out) ++ il.2 ++ "\n") acc
        = acc ++ strJoin (ls.map fun t => sp ++ t ++ "\n") := by
  induction ls with
  | nil => intro i acc _; simp [strJoin]
  | cons t ls ih =>
    intro i acc hi
    have hip : i > 0 := hi
    simp only [List.enumFrom, List.foldl, if_pos hip]
    rw [ih (i + 1) _ (by omega)]
    simp [strJoin, String.append_assoc]

/-- Closed form of `indent`: the first line is kept as is, every later
line is prefixed with the spaces, and every line is newline-terminated. -/
theorem indent_eq (lv : Nat) (s : String) :
    indent lv s
      = match rustLines s with
        | [] => ""
        | l :: rest =>
            l ++ "\n"
              ++ strJoin (rest.map fun t => String.mk (List.replicate lv ' ') ++ t ++ "\n") := by
  cases hr : rustLines s with
  | nil => simp [indent, hr]
  | cons l rest =>
    simp only [indent, hr, List.enum_cons, List.foldl]
    rw [indent_go _ _ 1 _ (by omega)]
    simp

/-- Claim C4: for a positive width, the indentation utility leaves the
first line unprefixed, prefixes every later line with exactly that many
spaces, terminates every line (the last included) with a newline, and
maps empty input to empty output. -/
theorem claim_c4 (N : Nat) (hN : 0 < N) (s : String) :
    (s = "" → indent N s = "")
      ∧ ∀ l rest, rustLines s = l :: rest →
          indent N s
            = l ++ "\n"
              ++ strJoin (rest.map fun t => String.mk (List.replicate N ' ') ++ t ++ "\n") := by
  constructor
  · intro he; subst he; exact indent_empty N
  · intro l rest hr
    rw [indent_eq]
    simp [hr]

/-- Witness for claim C4 at a concrete input: indenting `"a\nb"` by two
spaces keeps `a` unprefixed, prefixes `b`, and terminates both lines. -/
theorem claim_c4_w :
    0 < 2
      ∧ indent 2 "a\nb"
        = "a" ++ "\n"
          ++ strJoin (["b"].map fun t => String.mk (List.replicate 2 ' ') ++ t ++ "\n") :=
  ⟨by decide, (claim_c4 2 (by decide) "a\nb").2 "a" ["b"] (by decide)⟩

/-- Splitting at newlines after a newline-free prefix peels that prefix
off as the first segment. -/
theorem splitNL_append_nl : ∀ l : List Char, '\n' ∉ l →
    ∀ rest, splitNL (l ++ '\n' :: rest) = l :: splitNL rest := by
  intro l
  induction l with
  | nil => intro _ rest; simp [splitNL]
  | cons c l ih =>
    intro hn rest
    have hc : ¬ c = '\n' := fun h => hn (by simp [h])
    have hl : '\n' ∉ l := fun h => hn (List.mem_cons_of_mem _ h)
    show (if c = '\n' then [] :: splitNL (l ++ '\n' :: rest)
          else match splitNL (l ++ '\n' :: rest) with
               | [] => [[c]]
               | t :: ts => (c :: t) :: ts) = (c :: l) :: splitNL rest
    rw [if_neg hc, ih hl rest]

/-- Splitting a text assembled from newline-terminated lines recovers the
lines, plus one trailing empty segment. -/
theorem splitNL_flatten : ∀ ls : List (List Char), (∀ l ∈ ls, '\n' ∉ l) →
    splitNL ((ls.map fun l => l ++ ['\n']).flatten) = ls ++ [[]] := by
  intro ls
  induction ls with
  | nil => intro _; simp [splitNL]
  | cons l ls ih =>
    intro h
    have hl : '\n' ∉ l := (h l (by simp))
    have hrest : ∀ t ∈ ls, '\n' ∉ t := fun t ht => h t (by simp [ht])
    simp only [List.map_cons, List.flatten_cons, List.append_assoc, List.singleton_append]
    rw [splitNL_append_nl l hl, ih hrest]
    rfl

/-- A text assembled from newline-terminated lines ends with a newline. -/
theorem getLast?_flatten_nl : ∀ ls : List (List Char), ls ≠ [] →
    ((ls.map fun l => l ++ ['\n']).flatten).getLast? = some '\n' := by
  intro ls
  induction ls with
  | nil => intro h; cases h rfl
  | cons l ls ih =>
    intro _
    cases ls with
    | nil => simp
    | cons b ls' =>
      rw [List.map_cons, List.flatten_cons, List.getLast?_append,
        ih (List.cons_ne_nil b ls')]
      rfl

/-- On a text assembled from newline-terminated, carriage-return-free
lines, the line splitter recovers exactly those lines. -/
theorem rustLines_normal (ls : List (List Char))
    (h : ∀ l ∈ ls, '\n' ∉ l ∧ l.getLast? ≠ some '\x0d') :
    rustLines (String.mk ((ls.map fun l => l ++ ['\n']).flatten))
      = ls.map fun l => String.mk l := by
  cases ls with
  | nil => simp [rustLines]
  | cons a ls' =>
    have hne : ((a :: ls').map fun l => l ++ ['\n']).flatten ≠ [] := by
      simp
    have hlast := getLast?_flatten_nl (a :: ls') (List.cons_ne_nil a ls')
    have hsplit := splitNL_flatten (a :: ls') fun l hl => (h l hl).1
    simp only [rustLines, hne, if_neg, hlast, if_pos, hsplit]
    rw [List.dropLast_concat]
    apply List.map_congr_left
    intro l hl
    have : stripCR l = l := by
      simp [stripCR, (h l hl).2]
    rw [this]

/-- Indenting with width zero leaves a text assembled from
newline-terminated, carriage-return-free lines unchanged. -/
theorem indent0_normal (ls : List (List Char))
    (h : ∀ l ∈ ls, '\n' ∉ l ∧ l.getLast? ≠ some '\x0d') :
    indent 0 (String.mk ((ls.map fun l => l ++ ['\n']).flatten))
      = String.mk ((ls.map fun l => l ++ ['\n']).flatten) := by
  rw [indent_eq, rustLines_normal ls h]
  cases ls with
  | nil => exact strExt rfl
  | cons a ls' =>
    apply strExt
    simp [String.data_append, strJoin_data, List.map_map, Function.comp_def]

/-- Counterexample to claim C5 as stated: width 0 is not a no-op copy on
every text — a final line without a newline terminator gains one. -/
theorem claim_c5_cx : indent 0 "a" ≠ "a" := by decide

/-- Claim C5 (amended): the indentation utility with width 0 returns the
input unchanged for every input made of newline-terminated lines none of
which ends in a carriage return (on other inputs it normalizes the line
endings instead of copying); and the templating primitive with width 0
skips the indentation pass entirely, behaving exactly as with no width. -/
theorem claim_c5 (s : String) (ls : List (List Char))
    (h : ∀ l ∈ ls, '\n' ∉ l ∧ l.getLast? ≠ some '\x0d')
    (hs : s.data = (ls.map fun l => l ++ ['\n']).flatten) :
    indent 0 s = s
      ∧ ∀ {α : Type} (preds : List (α → Bool)) (joiner : Option String)
          (f : α → String) (xs : List α),
          helper preds (some 0) joiner f xs = helper preds none joiner f xs := by
  constructor
  · have hseq : s = String.mk ((ls.map fun l => l ++ ['\n']).flatten) := strExt hs
    rw [hseq]
    exact indent0_normal ls h
  · intro α preds joiner f xs
    rfl

/-- Witness for claim C5 at a concrete input: a single newline-terminated
line is copied unchanged by width 0. -/
theorem claim_c5_w : indent 0 "ab\n" = "ab\n" :=
  (claim_c5 "ab\n" [['a', 'b']] (by decide) (by decide)).1

/-- The concrete one-stage pipeline of claim C6: stall given as `s1`,
flush absent, clock `Posedge "clk"`. -/
def pipeC6 : Pipeline :=
  ⟨"P", "D", Edge.Posedge "clk", [⟨"S", "", some "s1", none⟩], [], []⟩

/-- The unique stage display line expected in the report of `pipeC6`:
it references `s1` and the default false literal for the absent flush. -/
def lineC6 : String := "$display(\"%s S\\x1B[0m\", status(s1, 1\x27b0));"

set_option maxRecDepth 4000 in
/-- Claim C6: a stage with an absent stall or flush condition renders
exactly as if that condition were the literal default false expression
(no error path exists), and the testbench generated from the one-stage
pipeline `pipeC6` contains exactly one stage display line, which
references `s1` together with the default flush literal. -/
theorem claim_c6 :
    (∀ nm ds stal, generate_stage_report ⟨nm, ds, stal, none⟩
        = generate_stage_report ⟨nm, ds, stal, some "1\x27b0"⟩)
      ∧ (∀ nm ds fl, generate_stage_report ⟨nm, ds, none, fl⟩
        = generate_stage_report ⟨nm, ds, some "1\x27b0", fl⟩)
      ∧ countOccs lineC6.data (generate_testbench pipeC6).data = 1 :=
  ⟨fun _ _ _ => rfl, fun _ _ _ => rfl, by decide⟩

/-- The testbench skeleton up to the opening of the always block splits
right before the trigger interpolation. -/
theorem tbB_split : tbB = "   ███\");\n    $display();\n    $display();\n\nend\n\n" ++ "always @(" := rfl

/-- The testbench skeleton after the trigger starts with the closing
parenthesis of the always trigger. -/
theorem tbC_split : tbC = ") begin" ++ "\n\n\t$display(\"───────────────────────────────────────────────────\");\n\t$display();\n\n    $display(\"= STAGES =\");\n    " := rfl

/-- Claim C7: the clock variants render to the three textual trigger
forms, and the rendered trigger is interpolated as the trigger of the
always block of the generated testbench. -/
theorem claim_c7 :
    (∀ x, renderEdge (Edge.Posedge x) = "posedge " ++ x
        ∧ renderEdge (Edge.Negedge x) = "negedge " ++ x
        ∧ renderEdge (Edge.Edge x) = "edge " ++ x)
      ∧ ∀ pipe : Pipeline, ∃ pre post,
          generate_testbench pipe
            = pre ++ ("always @(" ++ renderEdge pipe.clock ++ ") begin") ++ post := by
  constructor
  · intro x
    exact ⟨rfl, rfl, rfl⟩
  · intro pipe
    refine ⟨tbA ++ pipe.name ++ ": " ++ pipe.description ++ "   ███\");\n    $display();\n    $display();\n\nend\n\n",
      "\n\n\t$display(\"───────────────────────────────────────────────────\");\n\t$display();\n\n    $display(\"= STAGES =\");\n    "
        ++ helper [] (some 4) (some "\n") generate_stage_report pipe.stages
        ++ tbD ++ helper [] (some 4) (some "\n") generate_hazard_report pipe.hazards
        ++ tbE ++ helper [] (some 4) (some "\n") generate_forward_report pipe.forwards
        ++ tbF, ?_⟩
    simp only [generate_testbench]
    rw [tbB_split, tbC_split]
    simp only [String.append_assoc]

/-- Claim C9: the forward renderer reads only the name and the condition,
so two forwards agreeing on those render identically whatever their
source and destination stage references (or descriptions) are. -/
theorem claim_c9 (f₁ f₂ : Forward) (hn : f₁.name = f₂.name)
    (hc : f₁.condition = f₂.condition) :
    generate_forward_report f₁ = generate_forward_report f₂ := by
  simp [generate_forward_report, hn, hc]

/-- Witness for claim C9 at concrete inputs: same name and condition,
completely different descriptions and stage references. -/
theorem claim_c9_w :
    generate_forward_report
        ⟨"F", "d", "c", ⟨"A", "a", none, none⟩, ⟨"B", "b", none, none⟩⟩
      = generate_forward_report
        ⟨"F", "e", "c", ⟨"X", "x", some "s", some "g"⟩, ⟨"Y", "y", some "t", none⟩⟩ :=
  claim_c9 _ _ rfl rfl

/-- Stage equality up to the description field. -/
def StageEqND (s₁ s₂ : Stage) : Prop :=
  s₁.name = s₂.name ∧ s₁.stall = s₂.stall ∧ s₁.flush = s₂.flush

/-- Hazard equality up to the description field. -/
def HazardEqND (h₁ h₂ : Hazard) : Prop :=
  h₁.name = h₂.name ∧ h₁.condition = h₂.condition

/-- Forward equality up to description fields (its own and those of the
referenced stages). -/
def ForwardEqND (g₁ g₂ : Forward) : Prop :=
  g₁.name = g₂.name ∧ g₁.condition = g₂.condition
    ∧ StageEqND g₁.fromStage g₂.fromStage ∧ StageEqND g₁.toStage g₂.toStage

/-- Mapping a function that respects a relation over two related lists gives
equal results. -/
theorem map_eq_of_forall2 {α β : Type} {R : α → α → Prop} {f : α → β}
    (hf : ∀ a b, R a b → f a = f b) :
    ∀ {xs ys : List α}, List.Forall₂ R xs ys → xs.map f = ys.map f := by
  intro xs ys hxy
  induction hxy with
  | nil => rfl
  | cons hab _ ih => simp [List.map_cons, hf _ _ hab, ih]

/-- With no conditions, the templating primitive depends on the
collection only through the mapped fragments. -/
theorem helper_map_congr {α : Type} (level : Option Nat) (joiner : Option String)
    (f : α → String) (xs ys : List α) (h : xs.map f = ys.map f) :
    helper [] level joiner f xs = helper [] level joiner f ys := by
  have hcore : helperCore [] joiner f xs "" false = helperCore [] joiner f ys "" false := by
    rw [helperCore_false, helperCore_false]
    have hx : xs.filter (passSeq []) = xs := by simp [passSeq_nil, List.filter_true]
    have hy : ys.filter (passSeq []) = ys := by simp [passSeq_nil, List.filter_true]
    rw [hx, hy, h]
  cases level <;> simp [helper, hcore]

/-- Claim C10: the generated testbench never renders the description
field of a Stage, Hazard or Forward — two pipelines equal except for
those entity-level descriptions generate identical testbenches. -/
theorem claim_c10 (p₁ p₂ : Pipeline)
    (hn : p₁.name = p₂.name) (hd : p₁.description = p₂.description)
    (hc : p₁.clock = p₂.clock)
    (hs : List.Forall₂ StageEqND p₁.stages p₂.stages)
    (hh : List.Forall₂ HazardEqND p₁.hazards p₂.hazards)
    (hf : List.Forall₂ ForwardEqND p₁.forwards p₂.forwards) :
    generate_testbench p₁ = generate_testbench p₂ := by
  have h1 : p₁.stages.map generate_stage_report = p₂.stages.map generate_stage_report :=
    map_eq_of_forall2 (fun a b hab => by
      obtain ⟨e1, e2, e3⟩ := hab
      simp [generate_stage_report, e1, e2, e3]) hs
  have h2 : p₁.hazards.map generate_hazard_report = p₂.hazards.map generate_hazard_report :=
    map_eq_of_forall2 (fun a b hab => by
      obtain ⟨e1, e2⟩ := hab
      simp [generate_hazard_report, e1, e2]) hh
  have h3 : p₁.forwards.map generate_forward_report = p₂.forwards.map generate_forward_report :=
    map_eq_of_forall2 (fun a b hab => by
      obtain ⟨e1, e2, _, _⟩ := hab
      simp [generate_forward_report, e1, e2]) hf
  simp only [generate_testbench, hn, hd, hc,
    helper_map_congr _ _ _ _ _ h1, helper_map_congr _ _ _ _ _ h2,
    helper_map_congr _ _ _ _ _ h3]

/-- Witness for claim C10 at concrete inputs: pipelines differing only in
a stage description and a hazard description. -/
theorem claim_c10_w :
    generate_testbench
        ⟨"N", "D", Edge.Posedge "c", [⟨"S", "d1", none, none⟩], [⟨"H", "e1", "hc"⟩], []⟩
      = generate_testbench
        ⟨"N", "D", Edge.Posedge "c", [⟨"S", "d2", none, none⟩], [⟨"H", "e2", "hc"⟩], []⟩ :=
  claim_c10 _ _ rfl rfl rfl
    (List.Forall₂.cons ⟨rfl, rfl, rfl⟩ List.Forall₂.nil)
    (List.Forall₂.cons ⟨rfl, rfl⟩ List.Forall₂.nil)
    List.Forall₂.nil
